import Mathlib

/-!
# Verification of the SEO-Tool content engine

Shallow embedding of the repository's core (db.py, ingest.py, backfill.py,
and the republish-candidates endpoint of app.py), together with theorems
settling the specification's claims about it.

Conventions of the embedding:
* SQLite rows are Lean structures; the `articles` table is a `List Article`
  in insertion order, with `AUTOINCREMENT` modelled by `nextId`.
* SQL `TEXT` comparison (BINARY collation, memcmp on UTF-8 bytes) coincides
  with lexicographic comparison of Unicode code points, modelled by `strLT`.
* Network fetches are oracles `... → Except BfError ...`; a Python
  exception that propagates is `Except.error`, a caught one is handled in
  place, mirroring the try/except structure of the source.
* Calendar dates in backfill.py are modelled as ordinal day numbers (`Nat`);
  `date.isoformat()` is modelled by `toString`, an injective rendering.
-/

/-- Strict lexicographic order on lists of naturals; the kernel of all
string comparisons in this development. -/
def natsLT : List Nat → List Nat → Bool
  | [], [] => false
  | [], _ :: _ => true
  | _ :: _, [] => false
  | x :: xs, y :: ys =>
    if x < y then true
    else if y < x then false
    else natsLT xs ys

/-- The code points of a string, in order. -/
def strKey (s : String) : List Nat := s.data.map Char.toNat

/-- Strict order `a < b` as SQLite's BINARY collation (and Python's `<` on
`str`) uses: lexicographic on code points. -/
def strLT (a b : String) : Bool := natsLT (strKey a) (strKey b)

/-- Does `hay` start with `needle`? (Character lists.) -/
def strStarts : List Char → List Char → Bool
  | [], _ => true
  | _ :: _, [] => false
  | n :: ns, h :: hs => n == h && strStarts ns hs

/-- Substring test on character lists: `needle` occurs contiguously in
`hay`. -/
def hasSubChars (needle : List Char) (hay : List Char) : Bool :=
  if strStarts needle hay then true
  else
    match hay with
    | [] => false
    | _ :: tl => hasSubChars needle tl

/-- Substring test `hasSub needle hay`: semantics of SQL `hay LIKE '%needle%'` for
patterns with no wildcard characters (none of the patterns built by this
program contain `%` or `_` metacharacters of interest to the claims). -/
def hasSub (needle hay : String) : Bool := hasSubChars needle.data hay.data

/-- SQLite's `LOWER`: folds ASCII `A`–`Z` only (db.py applies it to the
stored columns inside the SQL queries). -/
def sqlLowerChar (c : Char) : Char :=
  if 65 ≤ c.toNat && c.toNat ≤ 90 then Char.ofNat (c.toNat + 32) else c

def sqlLower (s : String) : String := ⟨s.data.map sqlLowerChar⟩

/-- Python's `str.lower`, restricted to the character repertoire this
program handles: ASCII letters plus the German uppercase vowels
`Ä`/`Ö`/`Ü` (each maps to its code point + 32; `ß` is already
lowercase and is fixed). -/
def pyLowerChar (c : Char) : Char :=
  if (65 ≤ c.toNat && c.toNat ≤ 90)
      || c.toNat == 196 || c.toNat == 214 || c.toNat == 220 then
    Char.ofNat (c.toNat + 32)
  else c

def pyLower (s : String) : String := ⟨s.data.map pyLowerChar⟩

/-- The combining diaeresis U+0308, produced by NFD decomposition of the
umlaut vowels. -/
def combiningDiaeresis : Char := Char.ofNat 0x308

/-- Unicode NFD decomposition (`unicodedata.normalize("NFD", ·)`),
restricted to the characters this program feeds it (the input is already
lower-cased): `ä`/`ö`/`ü` split into the base vowel plus U+0308; `ß` and
all ASCII characters are NFD-inert. -/
def charNFD (c : Char) : List Char :=
  if c.toNat == 228 then ['a', combiningDiaeresis]
  else if c.toNat == 246 then ['o', combiningDiaeresis]
  else if c.toNat == 252 then ['u', combiningDiaeresis]
  else [c]

/-- Unicode general category `Mn` (nonspacing combining mark), restricted
to the block U+0300–U+036F that NFD of Latin letters can produce. -/
def isMn (c : Char) : Bool := 0x300 ≤ c.toNat && c.toNat ≤ 0x36F

/-- The chained `str.replace` calls `ä→ae`, `ö→oe`, `ü→ue`, `ß→ss` of
`expand_search_variants`; each pattern is a single character and no
replacement reintroduces a pattern character, so the chain is a single
character-wise expansion. -/
def umlautSub (c : Char) : List Char :=
  if c.toNat == 228 then ['a', 'e']
  else if c.toNat == 246 then ['o', 'e']
  else if c.toNat == 252 then ['u', 'e']
  else if c.toNat == 223 then ['s', 's']
  else [c]

/-- Ascending comparison used to model Python's `sorted` on strings. -/
def strLE (a b : String) : Bool := !(strLT b a)

/-- Insert into a sorted list, before the first element it may precede. -/
def insertSorted (le : α → α → Bool) (x : α) : List α → List α
  | [] => [x]
  | y :: ys => if le x y then x :: y :: ys else y :: insertSorted le x ys

/-- Insertion sort. SQLite's `ORDER BY` (and Python's `sorted`) only
promise output ordered by the sort keys; any correct sort embeds them, and
a structurally recursive one keeps the embedding kernel-computable. -/
def sortBy (le : α → α → Bool) : List α → List α
  | [] => []
  | x :: xs => insertSorted le x (sortBy le xs)

/-- db.py `expand_search_variants`: lower-case the term, add the
NFD-diacritic-stripped variant and the `ae`/`oe`/`ue`/`ss` variant,
deduplicate, drop empties, and return them sorted. -/
def expand_search_variants (term : String) : List String :=
  let term_lower := pyLower term
  let no_accents : String := ⟨(term_lower.data.flatMap charNFD).filter (fun c => !(isMn c))⟩
  let trans : String := ⟨term_lower.data.flatMap umlautSub⟩
  let variants := ([term_lower, no_accents, trans]).dedup
  sortBy strLE (variants.filter (fun v => v != ""))

/-- A row of the `articles` table (schema of db.py `init_db`). -/
structure Article where
  id : Nat
  url : String
  title : String
  summary : String
  content : String
  published_at : Option String
  source : String
  created_at : String
  updated_at : String
deriving DecidableEq

/-- SQLite `AUTOINCREMENT`: the next id is larger than every id ever used; on a
table that has never seen deletions this is max + 1. -/
def nextId (db : List Article) : Nat := (db.map (fun a => a.id)).foldr Nat.max 0 + 1

/-- db.py `save_article`: `INSERT ... ON CONFLICT(url) DO UPDATE` — if a
row with the same `url` exists, overwrite its mutable fields (title,
summary, content, published_at, source, updated_at) and keep `created_at`;
otherwise append a fresh row with `created_at = updated_at = now`. -/
def save_article (db : List Article) (now url title summary content : String)
    (published_at : Option String) (source : String) : List Article :=
  if db.any (fun a => a.url == url) then
    db.map (fun a =>
      if a.url == url then
        { a with title := title, summary := summary, content := content,
                 published_at := published_at, source := source, updated_at := now }
      else a)
  else
    db ++ [⟨nextId db, url, title, summary, content, published_at, source, now, now⟩]

/-- Python truthiness of an optional string (`if topic:` and friends):
present and non-empty. -/
def truthy : Option String → Bool
  | none => false
  | some s => s != ""

/-- One variant's clause
`(LOWER(title) LIKE ? OR LOWER(summary) LIKE ? OR LOWER(content) LIKE ?)`
with pattern `%v%`. -/
def likeVariant (v : String) (a : Article) : Bool :=
  hasSub v (sqlLower a.title) || hasSub v (sqlLower a.summary) || hasSub v (sqlLower a.content)

/-- The OR of all variant clauses. -/
def textMatch (variants : List String) (a : Article) : Bool :=
  variants.any (fun v => likeVariant v a)

/-- SQL `published_at >= f` on the nullable TEXT column: NULL compares to
nothing, so a NULL `published_at` fails the filter. -/
def pubGE (p : Option String) (f : String) : Bool :=
  match p with
  | none => false
  | some s => !(strLT s f)

/-- SQL `published_at <= t` on the nullable TEXT column. -/
def pubLE (p : Option String) (t : String) : Bool :=
  match p with
  | none => false
  | some s => !(strLT t s)

/-- The sort key of `ORDER BY (published_at IS NULL), published_at DESC,
id DESC`: `rowLE a b` holds when `a` may precede `b` — rows with a date
before rows without, later dates first, larger ids first on ties. -/
def rowLE (a b : Article) : Bool :=
  match a.published_at, b.published_at with
  | some pa, some pb =>
    if natsLT (strKey pb) (strKey pa) then true
    else if natsLT (strKey pa) (strKey pb) then false
    else decide (b.id ≤ a.id)
  | some _, none => true
  | none, some _ => false
  | none, none => decide (b.id ≤ a.id)

/-- db.py `search_articles`: variant-expanded substring match over title,
summary and content, optional date window (`to` is made end-of-day
inclusive by appending `T23:59:59`), ordered by the `ORDER BY` clause
above, truncated to `limit`. (The SQL projects a subset of the columns;
the embedding returns whole rows.) -/
def search_articles (db : List Article) (query : String) (limit : Nat)
    (from_date to_date : Option String) : List Article :=
  let variants := expand_search_variants query
  let pred := fun (a : Article) =>
    textMatch variants a
    && (if truthy from_date then pubGE a.published_at (from_date.getD "") else true)
    && (if truthy to_date then pubLE a.published_at ((to_date.getD "") ++ "T23:59:59") else true)
  (sortBy rowLE (db.filter pred)).take limit

/-- The fixed hard-news exclusion list of db.py `get_republish_candidates`. -/
def exclude_terms : List String :=
  ["unfall", "feuerwehr", "brand", "polizei", "prozess", "gericht",
   "festgenommen", "festnahme", "verhaftet", "wetterwarnung", "sturmwarnung",
   "sport", "spiel", "tor", "ergebnis"]

/-- db.py `get_republish_candidates`: optional topic (same variant
machinery as search), mandatory date window, and for every exclusion term
the conjunct `LOWER(title) NOT LIKE '%term%'`; same ordering and limit as
search. -/
def get_republish_candidates (db : List Article) (topic : Option String)
    (from_date to_date : String) (limit : Nat) : List Article :=
  let pred := fun (a : Article) =>
    (if truthy topic then textMatch (expand_search_variants (topic.getD "")) a else true)
    && pubGE a.published_at from_date
    && pubLE a.published_at (to_date ++ "T23:59:59")
    && exclude_terms.all (fun t => !(hasSub t (sqlLower a.title)))
  (sortBy rowLE (db.filter pred)).take limit

/-- app.py `/republish_candidates` after its default-date resolution: try
the candidate query; if it returns nothing and a topic was supplied, fall
back to plain `search_articles` with the same topic, limit and window. -/
def republish_candidates_endpoint (db : List Article) (topic : Option String)
    (limit : Nat) (from_date to_date : String) : List Article :=
  let results := get_republish_candidates db topic from_date to_date limit
  if results.isEmpty && truthy topic then
    search_articles db (topic.getD "") limit (some from_date) (some to_date)
  else results

/-- Error classes the backfill code can raise: `valueError` for date
validation, `fetchError` for `requests` exceptions /
`raise_for_status`. -/
inductive BfError
  | valueError
  | fetchError
deriving DecidableEq

/-- A parsed HTML page as BeautifulSoup exposes it to this program: the
stripped texts of the `h1` elements in document order, the stripped
paragraph texts inside each `article` container in document order, and the
stripped texts of all paragraph elements of the document. -/
structure Html where
  h1s : List String
  articleBlocks : List (List String)
  ps : List String
deriving DecidableEq

def BASE_URL : String := "https://www.goettinger-tageblatt.de"

/-- backfill.py `collect_article_urls_for_date`: fetch the archive listing
for the day (`raise_for_status` has no handler, so a fetch failure
propagates), resolve each href (root-relative against `BASE_URL`, absolute
kept, anything else dropped), keep the local-Göttingen section, deduplicate
and sort. The listing oracle yields the hrefs of the page's anchors. -/
def collect_article_urls_for_date (fetchListing : Nat → Except BfError (List String))
    (day : Nat) : Except BfError (List String) :=
  match fetchListing day with
  | .error e => .error e
  | .ok hrefs =>
    let resolved := hrefs.filterMap (fun href =>
      if strStarts "/".data href.data then some (BASE_URL ++ href)
      else if strStarts "http".data href.data then some href
      else none)
    let goe := resolved.filter (fun full => hasSub "/lokales/goettingen-lk/goettingen/" full)
    .ok (sortBy strLE goe.dedup)

/-- The extracted article payload of backfill.py `fetch_article_from_page`. -/
structure ArticleData where
  url : String
  title : String
  summary : String
  content : String
  published_at : String
  source : String
deriving DecidableEq

/-- The paragraph selection shared by backfill.py and ingest.py: the
paragraphs of the first `article` container if one exists, else every
paragraph of the document. -/
def extract_paragraphs (html : Html) : List String :=
  match html.articleBlocks.head? with
  | some blockPs => blockPs
  | none => html.ps

/-- Python `datetime.combine(day, time.min).isoformat(timespec="seconds")` in the
ordinal-day model. -/
def dayIso (day : Nat) : String := toString day ++ "T00:00:00"

/-- backfill.py `fetch_article_from_page`: a fetch failure is caught and
yields `{}` (here `none`); otherwise title is the first `h1`'s text with
the URL as fallback, content is the non-empty paragraph texts joined by
blank lines, `published_at` is the archive day at midnight, `source` the
fixed label. -/
def fetch_article_from_page (fetchPage : String → Except BfError Html)
    (url : String) (default_date : Nat) : Option ArticleData :=
  match fetchPage url with
  | .error _ => none
  | .ok html =>
    let title := (html.h1s.head?).getD url
    let texts := (extract_paragraphs html).filter (fun t => t != "")
    let content := String.intercalate "\n\n" texts
    some ⟨url, title, "", content, dayIso default_date, "GT Archiv"⟩

/-- ingest.py `fetch_fulltext`: same paragraph logic; a fetch failure is
caught and yields the empty string. -/
def fetch_fulltext (fetchPage : String → Except BfError Html) (url : String) : String :=
  match fetchPage url with
  | .error _ => ""
  | .ok html => String.intercalate "\n\n" ((extract_paragraphs html).filter (fun t => t != ""))

/-- The summary dict returned by backfill.py `backfill_day`. -/
structure DaySummary where
  date : String
  urls_found : Nat
  articles_saved : Nat
deriving DecidableEq

/-- backfill.py `backfill_day` for an already-parsed day (the date-string
parsing that `backfill_range` round-trips through is elided): collect the
day's URLs (a listing-fetch failure propagates), then fetch, extract and
upsert each article, skipping pages whose fetch failed. Threads the
database state. -/
def backfill_day (fetchListing : Nat → Except BfError (List String))
    (fetchPage : String → Except BfError Html) (now : String) (day : Nat)
    (db : List Article) : Except BfError (DaySummary × List Article) :=
  match collect_article_urls_for_date fetchListing day with
  | .error e => .error e
  | .ok urls =>
    let r := urls.foldl (fun (acc : Nat × List Article) url =>
      match fetch_article_from_page fetchPage url day with
      | none => acc
      | some art =>
        (acc.1 + 1,
         save_article acc.2 now art.url art.title art.summary art.content
           (some art.published_at) art.source)) (0, db)
    .ok (⟨toString day, urls.length, r.1⟩, r.2)

/-- The aggregate returned by backfill.py `backfill_range`. -/
structure RangeSummary where
  start_date : String
  end_date : String
  days : Nat
  total_urls_found : Nat
  total_articles_saved : Nat
  per_day : List (String × DaySummary)
deriving DecidableEq

/-- The `while current <= end` loop of `backfill_range`, recursing over the
list of days: each day's summary is recorded under its date key and the
totals accumulate; an error from `backfill_day` propagates and abandons the
remaining days. -/
def backfill_loop (fetchListing : Nat → Except BfError (List String))
    (fetchPage : String → Except BfError Html) (now : String) :
    List Nat → List Article → Except BfError (Nat × Nat × List (String × DaySummary) × List Article)
  | [], db => .ok (0, 0, [], db)
  | d :: rest, db =>
    match backfill_day fetchListing fetchPage now d db with
    | .error e => .error e
    | .ok (s, db2) =>
      match backfill_loop fetchListing fetchPage now rest db2 with
      | .error e => .error e
      | .ok (tu, ts, pd, db3) =>
        .ok (s.urls_found + tu, s.articles_saved + ts, (toString d, s) :: pd, db3)

/-- backfill.py `backfill_range`: reject an end date before the start date
(`ValueError`), otherwise run `backfill_day` for every day from start to
end inclusive, aggregating totals and the per-day breakdown. -/
def backfill_range (fetchListing : Nat → Except BfError (List String))
    (fetchPage : String → Except BfError Html) (now : String)
    (start endd : Nat) (db : List Article) : Except BfError (RangeSummary × List Article) :=
  if endd < start then .error .valueError
  else
    match backfill_loop fetchListing fetchPage now
        (List.range' start (endd + 1 - start)) db with
    | .error e => .error e
    | .ok (tu, ts, pd, db2) =>
      .ok (⟨toString start, toString endd, endd - start + 1, tu, ts, pd⟩, db2)


/-! ## Facts about the sorting machinery -/

theorem mem_insertSorted {le : α → α → Bool} {x a : α} {l : List α} :
    a ∈ insertSorted le x l ↔ a = x ∨ a ∈ l := by
  induction l with
  | nil => simp [insertSorted]
  | cons y ys ih =>
    simp only [insertSorted]
    split
    · simp [List.mem_cons]
    · simp only [List.mem_cons, ih]
      tauto

theorem length_insertSorted (le : α → α → Bool) (x : α) (l : List α) :
    (insertSorted le x l).length = l.length + 1 := by
  induction l with
  | nil => rfl
  | cons y ys ih =>
    simp only [insertSorted]
    split <;> simp [ih]

theorem mem_sortBy {le : α → α → Bool} {a : α} {l : List α} :
    a ∈ sortBy le l ↔ a ∈ l := by
  induction l with
  | nil => simp [sortBy]
  | cons x xs ih => simp [sortBy, mem_insertSorted, ih]

theorem length_sortBy (le : α → α → Bool) (l : List α) :
    (sortBy le l).length = l.length := by
  induction l with
  | nil => rfl
  | cons x xs ih => simp [sortBy, length_insertSorted, ih]

theorem pairwise_insertSorted {le : α → α → Bool}
    (total : ∀ a b, (le a b || le b a) = true)
    (trans : ∀ a b c, le a b = true → le b c = true → le a c = true)
    {x : α} {l : List α} (h : l.Pairwise (fun a b => le a b = true)) :
    (insertSorted le x l).Pairwise (fun a b => le a b = true) := by
  induction l with
  | nil => simp [insertSorted]
  | cons y ys ih =>
    rcases List.pairwise_cons.mp h with ⟨hy, hys⟩
    simp only [insertSorted]
    by_cases hxy : le x y = true
    · rw [if_pos hxy]
      refine List.pairwise_cons.mpr ⟨?_, h⟩
      intro b hb
      rcases List.mem_cons.mp hb with rfl | hb
      · exact hxy
      · exact trans x y b hxy (hy b hb)
    · rw [if_neg hxy]
      refine List.pairwise_cons.mpr ⟨?_, ih hys⟩
      intro b hb
      rcases mem_insertSorted.mp hb with hbx | hb
      · subst hbx
        have := total b y
        rcases Bool.or_eq_true_iff.mp this with h' | h'
        · exact absurd h' hxy
        · exact h'
      · exact hy b hb

theorem pairwise_sortBy {le : α → α → Bool}
    (total : ∀ a b, (le a b || le b a) = true)
    (trans : ∀ a b c, le a b = true → le b c = true → le a c = true)
    (l : List α) :
    (sortBy le l).Pairwise (fun a b => le a b = true) := by
  induction l with
  | nil => simp [sortBy]
  | cons x xs ih => exact pairwise_insertSorted total trans ih

/-! ## Facts about the lexicographic order -/

theorem natsLT_irrefl (a : List Nat) : natsLT a a = false := by
  induction a with
  | nil => rfl
  | cons x xs ih => simp [natsLT, ih]

theorem natsLT_trans :
    ∀ {a b c : List Nat}, natsLT a b = true → natsLT b c = true → natsLT a c = true
  | [], [], _, h1, _ => by simp [natsLT] at h1
  | [], _ :: _, [], _, h2 => by simp [natsLT] at h2
  | [], _ :: _, _ :: _, _, _ => by simp [natsLT]
  | _ :: _, [], _, h1, _ => by simp [natsLT] at h1
  | _ :: _, _ :: _, [], _, h2 => by simp [natsLT] at h2
  | x :: xs, y :: ys, z :: zs, h1, h2 => by
    simp only [natsLT] at h1 h2 ⊢
    by_cases hxy : x < y
    · by_cases hyz : y < z
      · rw [if_pos (show x < z by omega)]
      · rw [if_neg hyz] at h2
        by_cases hzy : z < y
        · rw [if_pos hzy] at h2
          exact absurd h2 (by simp)
        · rw [if_pos (show x < z by omega)]
    · rw [if_neg hxy] at h1
      by_cases hyx : y < x
      · rw [if_pos hyx] at h1
        exact absurd h1 (by simp)
      · rw [if_neg hyx] at h1
        by_cases hyz : y < z
        · rw [if_pos (show x < z by omega)]
        · rw [if_neg hyz] at h2
          by_cases hzy : z < y
          · rw [if_pos hzy] at h2
            exact absurd h2 (by simp)
          · rw [if_neg hzy] at h2
            rw [if_neg (show ¬ x < z by omega), if_neg (show ¬ z < x by omega)]
            exact natsLT_trans h1 h2

theorem natsLT_eq_of_not :
    ∀ {a b : List Nat}, natsLT a b = false → natsLT b a = false → a = b
  | [], [], _, _ => rfl
  | [], _ :: _, h1, _ => by simp [natsLT] at h1
  | _ :: _, [], _, h2 => by simp [natsLT] at h2
  | x :: xs, y :: ys, h1, h2 => by
    simp only [natsLT] at h1 h2
    by_cases hxy : x < y
    · rw [if_pos hxy] at h1
      exact absurd h1 (by simp)
    · rw [if_neg hxy] at h1
      by_cases hyx : y < x
      · rw [if_pos hyx] at h2
        exact absurd h2 (by simp)
      · rw [if_neg hyx] at h1 h2
        rw [if_neg hxy] at h2
        have hx : x = y := by omega
        rw [hx, natsLT_eq_of_not h1 h2]

theorem rowLE_none_none {a b : Article} (ha : a.published_at = none)
    (hb : b.published_at = none) : rowLE a b = decide (b.id ≤ a.id) := by
  unfold rowLE
  rw [ha, hb]

theorem rowLE_some_none {a b : Article} {pa : String} (ha : a.published_at = some pa)
    (hb : b.published_at = none) : rowLE a b = true := by
  unfold rowLE
  rw [ha, hb]

theorem rowLE_none_some {a b : Article} {pb : String} (ha : a.published_at = none)
    (hb : b.published_at = some pb) : rowLE a b = false := by
  unfold rowLE
  rw [ha, hb]

theorem rowLE_some_some {a b : Article} {pa pb : String} (ha : a.published_at = some pa)
    (hb : b.published_at = some pb) :
    rowLE a b = (if natsLT (strKey pb) (strKey pa) = true then true
      else if natsLT (strKey pa) (strKey pb) = true then false
      else decide (b.id ≤ a.id)) := by
  unfold rowLE
  rw [ha, hb]

theorem rowLE_total (a b : Article) : (rowLE a b || rowLE b a) = true := by
  cases ha : a.published_at with
  | none =>
    cases hb : b.published_at with
    | none =>
      rw [rowLE_none_none ha hb, rowLE_none_none hb ha]
      simp only [Bool.or_eq_true, decide_eq_true_eq]
      omega
    | some pb =>
      rw [rowLE_some_none hb ha, Bool.or_true]
  | some pa =>
    cases hb : b.published_at with
    | none => rw [rowLE_some_none ha hb, Bool.true_or]
    | some pb =>
      rw [rowLE_some_some ha hb, rowLE_some_some hb ha]
      by_cases g1 : natsLT (strKey pb) (strKey pa) = true
      · rw [if_pos g1, Bool.true_or]
      · by_cases g2 : natsLT (strKey pa) (strKey pb) = true
        · rw [if_pos g2, if_neg g1, if_pos g2]
          simp
        · rw [if_neg g1, if_neg g2, if_neg g2, if_neg g1]
          simp only [Bool.or_eq_true, decide_eq_true_eq]
          omega

theorem rowLE_trans (a b c : Article)
    (h1 : rowLE a b = true) (h2 : rowLE b c = true) : rowLE a c = true := by
  cases ha : a.published_at with
  | none =>
    cases hb : b.published_at with
    | none =>
      cases hc : c.published_at with
      | none =>
        rw [rowLE_none_none ha hb] at h1
        rw [rowLE_none_none hb hc] at h2
        rw [rowLE_none_none ha hc]
        simp only [decide_eq_true_eq] at h1 h2 ⊢
        omega
      | some pc =>
        rw [rowLE_none_some hb hc] at h2
        exact absurd h2 (by simp)
    | some pb =>
      rw [rowLE_none_some ha hb] at h1
      exact absurd h1 (by simp)
  | some pa =>
    cases hc : c.published_at with
    | none => exact rowLE_some_none ha hc
    | some pc =>
      cases hb : b.published_at with
      | none =>
        rw [rowLE_none_some hb hc] at h2
        exact absurd h2 (by simp)
      | some pb =>
        rw [rowLE_some_some ha hb] at h1
        rw [rowLE_some_some hb hc] at h2
        rw [rowLE_some_some ha hc]
        by_cases g1 : natsLT (strKey pb) (strKey pa) = true
        · by_cases g2 : natsLT (strKey pc) (strKey pb) = true
          · rw [if_pos (natsLT_trans g2 g1)]
          · rw [if_neg g2] at h2
            by_cases g3 : natsLT (strKey pb) (strKey pc) = true
            · rw [if_pos g3] at h2
              exact absurd h2 (by simp)
            · have hbc := natsLT_eq_of_not
                (show natsLT (strKey pc) (strKey pb) = false by simpa using g2)
                (show natsLT (strKey pb) (strKey pc) = false by simpa using g3)
              rw [if_pos (show natsLT (strKey pc) (strKey pa) = true by rw [← hbc] at g1; exact g1)]
        · rw [if_neg g1] at h1
          by_cases g4 : natsLT (strKey pa) (strKey pb) = true
          · rw [if_pos g4] at h1
            exact absurd h1 (by simp)
          · rw [if_neg g4] at h1
            have hab := natsLT_eq_of_not
              (show natsLT (strKey pb) (strKey pa) = false by simpa using g1)
              (show natsLT (strKey pa) (strKey pb) = false by simpa using g4)
            by_cases g2 : natsLT (strKey pc) (strKey pb) = true
            · rw [if_pos (show natsLT (strKey pc) (strKey pa) = true by rw [← hab]; exact g2)]
            · rw [if_neg g2] at h2
              by_cases g3 : natsLT (strKey pb) (strKey pc) = true
              · rw [if_pos g3] at h2
                exact absurd h2 (by simp)
              · rw [if_neg g3] at h2
                rw [if_neg (show ¬ natsLT (strKey pc) (strKey pa) = true by rw [← hab]; exact g2),
                    if_neg (show ¬ natsLT (strKey pa) (strKey pc) = true by rw [← hab]; exact g3)]
                simp only [decide_eq_true_eq] at h1 h2 ⊢
                omega

theorem charToNat_inj {a b : Char} (h : a.toNat = b.toNat) : a = b := by
  apply Char.ext
  rcases a with ⟨⟨va⟩, ha⟩
  rcases b with ⟨⟨vb⟩, hb⟩
  simp only [Char.toNat, UInt32.toNat] at h
  simp only
  congr 1
  exact BitVec.eq_of_toNat_eq h

theorem strKey_inj {a b : String} (h : strKey a = strKey b) : a = b := by
  unfold strKey at h
  have hd : a.data = b.data :=
    List.map_injective_iff.mpr (fun x y hxy => charToNat_inj hxy) h
  cases a
  cases b
  simp only at hd
  rw [hd]

/-- What a true `rowLE a b` says about the pair, in the spec's terms:
date-less rows never precede dated rows, dated rows are in descending date
order with descending-id ties, date-less rows among themselves are in
descending-id order. -/
theorem rowLE_spec {a b : Article} (h : rowLE a b = true) :
    (a.published_at.isNone = true → b.published_at.isNone = true) ∧
    (∀ pa pb, a.published_at = some pa → b.published_at = some pb →
      strLT pb pa = true ∨ (pa = pb ∧ b.id ≤ a.id)) ∧
    (a.published_at = none → b.published_at = none → b.id ≤ a.id) := by
  refine ⟨?_, ?_, ?_⟩
  · intro hna
    cases hb : b.published_at with
    | none => simp [hb]
    | some pb =>
      have ha : a.published_at = none := Option.isNone_iff_eq_none.mp hna
      rw [rowLE_none_some ha hb] at h
      exact absurd h (by simp)
  · intro pa pb ha hb
    rw [rowLE_some_some ha hb] at h
    by_cases g1 : natsLT (strKey pb) (strKey pa) = true
    · left
      exact g1
    · rw [if_neg g1] at h
      by_cases g2 : natsLT (strKey pa) (strKey pb) = true
      · rw [if_pos g2] at h
        exact absurd h (by simp)
      · rw [if_neg g2] at h
        right
        exact ⟨strKey_inj (natsLT_eq_of_not (by simpa using g2) (by simpa using g1)),
          by simpa using h⟩
  · intro ha hb
    rw [rowLE_none_none ha hb] at h
    simpa using h

/-! ## Sample stores for the concrete halves of the claims -/

/-- An article dated just past the spec's example window. -/
def c3Aug : Article :=
  ⟨1, "https://example.org/aug", "markt im august", "", "",
   some "2025-08-01T00:00:00", "Feed", "2025-08-02T00:00:00", "2025-08-02T00:00:00"⟩

/-- An article dated in the last hour of the spec's example window. -/
def c3Jul : Article :=
  ⟨2, "https://example.org/jul", "markt im juli", "", "",
   some "2025-07-31T23:00:00", "Feed", "2025-08-02T00:00:00", "2025-08-02T00:00:00"⟩

/-- The hard-news article of the spec's exclusion example. -/
def unfallA7 : Article :=
  ⟨1, "https://example.org/unfall", "Unfall auf der A7", "", "",
   some "2025-06-15T00:00:00", "Feed", "x", "x"⟩

/-- A candidate article whose title carries no exclusion keyword. -/
def evergreen : Article :=
  ⟨2, "https://example.org/ever", "Weihnachtsmarkt", "", "",
   some "2025-06-15T00:00:00", "Feed", "x", "x"⟩

/-! ## The claims -/

/-- C1: upserting the same URL twice (into a store not yet holding it)
leaves exactly one record for that URL; its mutable fields (title, summary,
content, published_at, source, updated_at) are the second write's, and its
`created_at` is the one the first write set. -/
theorem C1_upsert_twice (db : List Article)
    (now1 now2 u t1 s1 c1 src1 t2 s2 c2 src2 : String) (p1 p2 : Option String)
    (h : ∀ a ∈ db, a.url ≠ u) :
    (save_article (save_article db now1 u t1 s1 c1 p1 src1) now2 u t2 s2 c2 p2 src2).filter
        (fun a => a.url == u) =
      [⟨nextId db, u, t2, s2, c2, p2, src2, now1, now2⟩] := by
  have hany : db.any (fun a => a.url == u) = false := by
    apply Bool.eq_false_iff.mpr
    intro hcon
    rcases List.any_eq_true.mp hcon with ⟨x, hx, hxu⟩
    exact h x hx (by simpa using hxu)
  have h1 : save_article db now1 u t1 s1 c1 p1 src1
      = db ++ [⟨nextId db, u, t1, s1, c1, p1, src1, now1, now1⟩] := by
    unfold save_article
    rw [hany]
    simp
  rw [h1]
  have hany2 : (db ++ [(⟨nextId db, u, t1, s1, c1, p1, src1, now1, now1⟩ : Article)]).any
      (fun a => a.url == u) = true := by
    apply List.any_eq_true.mpr
    exact ⟨⟨nextId db, u, t1, s1, c1, p1, src1, now1, now1⟩, by simp, by simp⟩
  unfold save_article
  rw [hany2]
  simp only [if_true]
  rw [List.map_append, List.filter_append]
  have hnil : ((db.map (fun a =>
      if a.url == u then
        { a with title := t2, summary := s2, content := c2,
                 published_at := p2, source := src2, updated_at := now2 }
      else a)).filter (fun a => a.url == u)) = [] := by
    apply List.filter_eq_nil_iff.mpr
    intro x hx
    rcases List.mem_map.mp hx with ⟨a0, ha0, rfl⟩
    have hne : (a0.url == u) = false := beq_eq_false_iff_ne.mpr (h a0 ha0)
    simp [hne]
  rw [hnil]
  simp

/-- C1 witness. -/
theorem C1_upsert_twice_witness :
    (save_article (save_article [] "T1" "u1" "first" "s1" "c1" none "f1")
        "T2" "u1" "second" "s2" "c2" (some "2025-01-01T00:00:00") "f2").filter
        (fun a => a.url == "u1") =
      [⟨nextId [], "u1", "second", "s2", "c2", some "2025-01-01T00:00:00", "f2", "T1", "T2"⟩] :=
  C1_upsert_twice [] "T1" "T2" "u1" "first" "s1" "c1" "f1" "second" "s2" "c2" "f2"
    none (some "2025-01-01T00:00:00") (by simp)

/-- C3: with both window edges given, search conjoins
`published_at >= from` and `published_at <= to ++ "T23:59:59"`; concretely,
the July 2025 window excludes the article dated 2025-08-01 and includes the
one dated 2025-07-31T23:00:00. -/
theorem C3_date_window :
    (∀ (db : List Article) (q : String) (l : Nat) (f t : String) (a : Article),
        f ≠ "" → t ≠ "" → a ∈ search_articles db q l (some f) (some t) →
        pubGE a.published_at f = true ∧ pubLE a.published_at (t ++ "T23:59:59") = true) ∧
    search_articles [c3Aug, c3Jul] "markt" 20 (some "2025-07-01") (some "2025-07-31")
      = [c3Jul] := by
  constructor
  · intro db q l f t a hf ht hmem
    unfold search_articles at hmem
    have h1 := List.mem_of_mem_take hmem
    rw [mem_sortBy, List.mem_filter] at h1
    have hpred := h1.2
    simp only [truthy] at hpred
    rw [if_pos (by simpa using hf), if_pos (by simpa using ht)] at hpred
    simp only [Bool.and_eq_true] at hpred
    exact ⟨hpred.1.2, hpred.2⟩
  · decide

/-- C3 witness. -/
theorem C3_date_window_witness :
    pubGE c3Jul.published_at "2025-07-01" = true ∧
    pubLE c3Jul.published_at ("2025-07-31" ++ "T23:59:59") = true :=
  C3_date_window.1 [c3Aug, c3Jul] "markt" 20 "2025-07-01" "2025-07-31" c3Jul
    (by decide) (by decide) (by decide)

/-- C4: every search result list is ordered with date-less records after
all dated ones, dated records descending by `published_at`, equal dates
(and date-less records among themselves) by descending id, and the list
has at most `limit` elements. -/
theorem C4_search_ordering (db : List Article) (query : String) (limit : Nat)
    (from_date to_date : Option String) :
    (search_articles db query limit from_date to_date).Pairwise (fun a b =>
        (a.published_at.isNone = true → b.published_at.isNone = true) ∧
        (∀ pa pb, a.published_at = some pa → b.published_at = some pb →
          strLT pb pa = true ∨ (pa = pb ∧ b.id ≤ a.id)) ∧
        (a.published_at = none → b.published_at = none → b.id ≤ a.id)) ∧
    (search_articles db query limit from_date to_date).length ≤ limit := by
  constructor
  · unfold search_articles
    refine List.Pairwise.imp (fun h => rowLE_spec h) ?_
    exact List.Pairwise.sublist (List.take_sublist _ _)
      (pairwise_sortBy rowLE_total rowLE_trans _)
  · unfold search_articles
    simp only [List.length_take]
    exact Nat.min_le_left _ _

/-- C5: no republish candidate's lower-cased title contains any exclusion
keyword — the exclusion is conjoined with all other filters; concretely,
`"Unfall auf der A7"` is excluded even though it matches the topic `"A7"`
and lies inside the window. -/
theorem C5_exclusion_keywords :
    (∀ (db : List Article) (topic : Option String) (f t : String) (l : Nat) (a : Article),
        a ∈ get_republish_candidates db topic f t l →
        ∀ term ∈ exclude_terms, hasSub term (sqlLower a.title) = false) ∧
    (textMatch (expand_search_variants "A7") unfallA7 = true ∧
     pubGE unfallA7.published_at "2025-01-01" = true ∧
     pubLE unfallA7.published_at ("2025-12-31" ++ "T23:59:59") = true ∧
     unfallA7 ∉ get_republish_candidates [unfallA7] (some "A7") "2025-01-01" "2025-12-31" 20) := by
  constructor
  · intro db topic f t l a hmem term hterm
    unfold get_republish_candidates at hmem
    have h1 := List.mem_of_mem_take hmem
    rw [mem_sortBy, List.mem_filter] at h1
    have hpred := h1.2
    simp only [Bool.and_eq_true] at hpred
    have hall := List.all_eq_true.mp hpred.2 term hterm
    simpa using hall
  · decide

/-- C5 witness. -/
theorem C5_exclusion_keywords_witness :
    hasSub "unfall" (sqlLower evergreen.title) = false :=
  C5_exclusion_keywords.1 [evergreen] none "2025-01-01" "2025-12-31" 20 evergreen
    (by decide) "unfall" (by decide)

/-- C6: the Text Normalizer on `"Straße"` returns the deterministic sorted
deduplicated list `["strasse", "straße"]`, containing `"straße"`,
`"strasse"` and the NFD-diacritic-stripped form, with every variant
non-empty and free of combining marks. -/
theorem C6_variants_strasse :
    expand_search_variants "Straße" = ["strasse", "straße"] ∧
    "straße" ∈ expand_search_variants "Straße" ∧
    "strasse" ∈ expand_search_variants "Straße" ∧
    (⟨((pyLower "Straße").data.flatMap charNFD).filter (fun c => !(isMn c))⟩ : String)
      ∈ expand_search_variants "Straße" ∧
    ∀ v ∈ expand_search_variants "Straße", v ≠ "" ∧ ∀ c ∈ v.data, isMn c = false := by
  decide

/-- C9: a republish candidate always has a `published_at`: the date-window
comparisons are unconditional and a NULL date fails them, so date-less
articles are never candidates. -/
theorem C9_candidates_dated (db : List Article) (topic : Option String)
    (f t : String) (l : Nat) (a : Article)
    (hmem : a ∈ get_republish_candidates db topic f t l) :
    a.published_at.isSome = true := by
  unfold get_republish_candidates at hmem
  have h1 := List.mem_of_mem_take hmem
  rw [mem_sortBy, List.mem_filter] at h1
  have hpred := h1.2
  simp only [Bool.and_eq_true] at hpred
  have hge := hpred.1.1.2
  unfold pubGE at hge
  cases hp : a.published_at with
  | none => rw [hp] at hge; exact absurd hge (by simp)
  | some p => simp [hp]

/-- C9 witness. -/
theorem C9_candidates_dated_witness : evergreen.published_at.isSome = true :=
  C9_candidates_dated [evergreen] none "2025-01-01" "2025-12-31" 20 evergreen (by decide)

/-- C10: when the exclusion-filtered candidate query is empty and a topic
was supplied, the endpoint falls back to plain search, which applies no
title exclusion — so it can return an article whose title carries an
exclusion keyword. -/
theorem C10_fallback_returns_excluded_title :
    republish_candidates_endpoint [unfallA7] (some "A7") 50 "2025-01-01" "2025-12-31"
      = [unfallA7] ∧
    "unfall" ∈ exclude_terms ∧
    hasSub "unfall" (sqlLower unfallA7.title) = true := by
  decide

/-! ## Backfill lemmas -/

/-- A day whose archive-listing fetch succeeds always yields a summary,
whatever the article-page oracle does: page failures are skipped. -/
theorem backfill_day_ok (fl : Nat → Except BfError (List String))
    (fp : String → Except BfError Html) (now : String) (day : Nat)
    (db : List Article) (urls : List String) (hfl : fl day = .ok urls) :
    ∃ s db2, backfill_day fl fp now day db = .ok (s, db2) ∧ s.date = toString day := by
  unfold backfill_day collect_article_urls_for_date
  rw [hfl]
  exact ⟨_, _, rfl, rfl⟩

/-- A day whose archive-listing fetch fails propagates that error. -/
theorem backfill_day_error (fl : Nat → Except BfError (List String))
    (fp : String → Except BfError Html) (now : String) (day : Nat)
    (db : List Article) (e : BfError) (hfl : fl day = .error e) :
    backfill_day fl fp now day db = .error e := by
  unfold backfill_day collect_article_urls_for_date
  rw [hfl]

/-- Running the day loop over `range' start n` when every listing fetch in
the window succeeds: one per-day entry per day in order, and the totals are
the sums of the per-day counts. -/
theorem backfill_loop_range_ok (fl : Nat → Except BfError (List String))
    (fp : String → Except BfError Html) (now : String) :
    ∀ (n start : Nat) (db : List Article),
    (∀ d, start ≤ d → d < start + n → ∃ urls, fl d = .ok urls) →
    ∃ tu ts pd db2,
      backfill_loop fl fp now (List.range' start n) db = .ok (tu, ts, pd, db2) ∧
      pd.map Prod.fst = (List.range' start n).map toString ∧
      tu = (pd.map (fun p => p.2.urls_found)).sum ∧
      ts = (pd.map (fun p => p.2.articles_saved)).sum
  | 0, start, db, _ => ⟨0, 0, [], db, rfl, by simp, by simp, by simp⟩
  | n + 1, start, db, hok => by
    rcases hok start (Nat.le_refl _) (by omega) with ⟨urls, hu⟩
    rcases backfill_day_ok fl fp now start db urls hu with ⟨s, db2, hday, _⟩
    rcases backfill_loop_range_ok fl fp now n (start + 1) db2
        (fun d h1 h2 => hok d (by omega) (by omega)) with
      ⟨tu, ts, pd, db3, hloop, hkeys, htu, hts⟩
    refine ⟨s.urls_found + tu, s.articles_saved + ts, (toString start, s) :: pd, db3,
      ?_, ?_, ?_, ?_⟩
    · rw [List.range'_succ]
      unfold backfill_loop
      rw [hday]
      simp only
      rw [hloop]
    · rw [List.range'_succ]
      simp [hkeys]
    · simp [htu]
    · simp [hts]

/-- The day loop aborts with the listing-fetch error of the first failing
day, abandoning every later day. -/
theorem backfill_loop_error (fl : Nat → Except BfError (List String))
    (fp : String → Except BfError Html) (now : String) (e : BfError) (k : Nat)
    (hk : fl k = .error e) :
    ∀ (pre rest : List Nat) (db : List Article),
    (∀ d ∈ pre, ∃ urls, fl d = .ok urls) →
    backfill_loop fl fp now (pre ++ k :: rest) db = .error e
  | [], rest, db, _ => by
    simp only [List.nil_append]
    unfold backfill_loop
    rw [backfill_day_error fl fp now k db e hk]
  | d :: ds, rest, db, hpre => by
    rcases hpre d (List.mem_cons_self d ds) with ⟨urls, hd⟩
    rcases backfill_day_ok fl fp now d db urls hd with ⟨s, db2, hday, _⟩
    simp only [List.cons_append]
    unfold backfill_loop
    rw [hday]
    simp only
    rw [backfill_loop_error fl fp now e k hk ds rest db2
      (fun x hx => hpre x (List.mem_cons_of_mem d hx))]

/-- C7: when start ≤ end and every day's listing fetch succeeds, the range
run succeeds, reports `days = end - start + 1`, records exactly one
per-day summary per calendar day from start to end in order, and its
totals are the sums of the per-day counts. -/
theorem C7_range_aggregation (fl : Nat → Except BfError (List String))
    (fp : String → Except BfError Html) (now : String) (start endd : Nat)
    (db : List Article) (hse : start ≤ endd)
    (hok : ∀ d, start ≤ d → d ≤ endd → ∃ urls, fl d = .ok urls) :
    ∃ r db2, backfill_range fl fp now start endd db = .ok (r, db2) ∧
      r.days = endd - start + 1 ∧
      r.per_day.map Prod.fst = (List.range' start (endd + 1 - start)).map toString ∧
      r.per_day.length = endd - start + 1 ∧
      r.total_urls_found = (r.per_day.map (fun p => p.2.urls_found)).sum ∧
      r.total_articles_saved = (r.per_day.map (fun p => p.2.articles_saved)).sum := by
  rcases backfill_loop_range_ok fl fp now (endd + 1 - start) start db
      (fun d h1 h2 => hok d h1 (by omega)) with ⟨tu, ts, pd, db2, hloop, hkeys, htu, hts⟩
  refine ⟨⟨toString start, toString endd, endd - start + 1, tu, ts, pd⟩, db2,
    ?_, rfl, hkeys, ?_, htu, hts⟩
  · unfold backfill_range
    rw [if_neg (by omega)]
    rw [hloop]
  · show pd.length = endd - start + 1
    have hlen := congrArg List.length hkeys
    simp only [List.length_map, List.length_range'] at hlen
    omega

/-- C7 witness. -/
theorem C7_range_aggregation_witness :
    ∃ r db2,
      backfill_range (fun _ => .ok []) (fun _ => .error .fetchError) "T" 0 1 []
        = .ok (r, db2) ∧
      r.days = 1 - 0 + 1 ∧
      r.per_day.map Prod.fst = (List.range' 0 (1 + 1 - 0)).map toString ∧
      r.per_day.length = 1 - 0 + 1 ∧
      r.total_urls_found = (r.per_day.map (fun p => p.2.urls_found)).sum ∧
      r.total_articles_saved = (r.per_day.map (fun p => p.2.articles_saved)).sum :=
  C7_range_aggregation (fun _ => .ok []) (fun _ => .error .fetchError) "T" 0 1 []
    (by omega) (fun d _ _ => ⟨[], rfl⟩)

/-- The failing oracle of the C2 counterexample: the archive listing for
day 0 cannot be fetched; every other day's listing is fine and empty. -/
def flDay0Fails : Nat → Except BfError (List String) :=
  fun d => if d == 0 then .error .fetchError else .ok []

/-- A page oracle on which every fetch fails. -/
def fpAllFail : String → Except BfError Html := fun _ => .error .fetchError

/-- C2 counterexample: with day 0's archive-listing fetch failing, the
2-day range run (days 0 and 1) aborts with the fetch error instead of
continuing with day 1 — so a fetch failure can abort the whole run. -/
theorem C2_counterexample :
    backfill_range flDay0Fails fpAllFail "T" 0 1 [] = .error .fetchError := rfl

/-- C2 (amended): a failed fetch of an individual article page is treated
as no data and the day run continues — a day whose listing fetch succeeds
always completes, whatever the page oracle does — but a failed fetch of a
day's archive-listing page propagates and aborts the whole range run,
abandoning the remaining days. -/
theorem C2_fetch_failure_isolation :
    (∀ (fp : String → Except BfError Html) (url : String) (d : Nat) (e : BfError),
        fp url = .error e → fetch_article_from_page fp url d = none) ∧
    (∀ (fl : Nat → Except BfError (List String)) (fp : String → Except BfError Html)
        (now : String) (day : Nat) (db : List Article) (urls : List String),
        fl day = .ok urls → ∃ out, backfill_day fl fp now day db = .ok out) ∧
    (∀ (fl : Nat → Except BfError (List String)) (fp : String → Except BfError Html)
        (now : String) (start endd k : Nat) (db : List Article) (e : BfError),
        start ≤ k → k ≤ endd →
        (∀ d, start ≤ d → d < k → ∃ urls, fl d = .ok urls) →
        fl k = .error e →
        backfill_range fl fp now start endd db = .error e) := by
  refine ⟨?_, ?_, ?_⟩
  · intro fp url d e h
    unfold fetch_article_from_page
    rw [h]
  · intro fl fp now day db urls h
    rcases backfill_day_ok fl fp now day db urls h with ⟨s, db2, heq, _⟩
    exact ⟨(s, db2), heq⟩
  · intro fl fp now start endd k db e hsk hke hpre hk
    unfold backfill_range
    rw [if_neg (by omega)]
    have hdecomp : List.range' start (endd + 1 - start)
        = List.range' start (k - start) ++ k :: List.range' (k + 1) (endd - k) := by
      have h1 : endd + 1 - start = (endd + 1 - k) + (k - start) := by omega
      rw [h1, ← List.range'_append_1]
      have h2 : start + (k - start) = k := by omega
      rw [h2]
      have h3 : endd + 1 - k = (endd - k) + 1 := by omega
      rw [h3, List.range'_succ]
    have hpre' : ∀ d ∈ List.range' start (k - start), ∃ urls, fl d = .ok urls := by
      intro d hd
      have hm := List.mem_range'_1.mp hd
      exact hpre d hm.1 (by omega)
    rw [hdecomp,
      backfill_loop_error fl fp now e k hk (List.range' start (k - start))
        (List.range' (k + 1) (endd - k)) db hpre']

/-- C2 (amended) witness. -/
theorem C2_fetch_failure_isolation_witness :
    fetch_article_from_page fpAllFail "https://example.org/p" 0 = none ∧
    (∃ out, backfill_day (fun _ => .ok ["x"]) fpAllFail "T" 0 [] = .ok out) ∧
    backfill_range flDay0Fails fpAllFail "T" 0 1 [] = .error .fetchError :=
  ⟨C2_fetch_failure_isolation.1 fpAllFail "https://example.org/p" 0 .fetchError rfl,
   C2_fetch_failure_isolation.2.1 (fun _ => .ok ["x"]) fpAllFail "T" 0 [] ["x"] rfl,
   C2_fetch_failure_isolation.2.2 flDay0Fails fpAllFail "T" 0 1 0 [] .fetchError
     (by omega) (by omega) (fun d h1 h2 => absurd h2 (by omega)) rfl⟩

/-- C8: a fetched page with no `h1` and no paragraphs yields the fallback
URL verbatim as title and empty content (and ingest's full-text resolver
yields the empty string); the extraction never fails. -/
theorem C8_extraction_fallback (fp : String → Except BfError Html) (url : String)
    (day : Nat) (html : Html) (hfetch : fp url = .ok html) (hh1 : html.h1s = [])
    (hps : html.ps = []) (hart : ∀ b ∈ html.articleBlocks, b = []) :
    fetch_article_from_page fp url day
      = some ⟨url, url, "", "", dayIso day, "GT Archiv"⟩ ∧
    fetch_fulltext fp url = "" := by
  have hpar : extract_paragraphs html = [] := by
    unfold extract_paragraphs
    cases hb : html.articleBlocks.head? with
    | none => exact hps
    | some b => exact hart b (List.mem_of_mem_head? hb)
  constructor
  · unfold fetch_article_from_page
    rw [hfetch]
    simp only
    rw [hh1, hpar]
    rfl
  · unfold fetch_fulltext
    rw [hfetch]
    simp only
    rw [hpar]
    rfl

/-- C8 witness. -/
theorem C8_extraction_fallback_witness :
    fetch_article_from_page (fun _ => .ok ⟨[], [], []⟩) "https://example.org/a" 5
      = some ⟨"https://example.org/a", "https://example.org/a", "", "", dayIso 5, "GT Archiv"⟩ ∧
    fetch_fulltext (fun _ => .ok ⟨[], [], []⟩) "https://example.org/a" = "" :=
  C8_extraction_fallback (fun _ => .ok ⟨[], [], []⟩) "https://example.org/a" 5
    ⟨[], [], []⟩ rfl rfl rfl (by simp)
